import Mathlib

/-
Shallow embedding of pgn2pdf.py (PGN to LaTeX chess-document converter).

Modelling conventions:
* Python strings are Lean `String` (character lists); whitespace is the set
  of ASCII whitespace characters recognised by Python's `str.strip` /
  `str.split(None)` (space, tab, newline, carriage return, vertical tab,
  form feed).  Python's `str.lower` / `str.islower` are modelled with
  `Char.toLower` / `Char.isLower`, which agree on ASCII input.
* Python exceptions become an explicit error type `Err`; each raise site
  (or built-in exception site) of the source is given its own constructor,
  named after the spec's error taxonomy where one applies.
* The `TEXWriter` output sink is modelled as the list of calls made to
  `TEXWriter.write`, each recorded as a `WriteEvt` (formatted line plus the
  `paragraph` / `trailing_newline` flags).  `write`'s `line % args`
  formatting is modelled: call sites without arguments go through
  `writeNA`, which applies Python's `line % ()` (collapsing `%%`, raising
  on any other specifier); call sites with arguments substitute into a
  fixed format string with matching specifier count, which cannot fail.
  The final textwrap-based line wrapping inside `write` is pure per-line
  formatting of the sink text and is not modelled; all properties below
  are about the emitted write calls and their order.
* The tokenizer loop `PGNParser.parse_game` is modelled with explicit fuel
  (one unit per loop iteration); `none` means the fuel ran out.  The
  totality theorem for claim C2 proves that `length + 1` units always
  suffice, i.e. the source loop makes progress every iteration.
-/

/-- Python ASCII whitespace, as recognised by `str.strip` and `str.split(None)`. -/
def pyIsSpace (c : Char) : Bool :=
  c = ' ' || c = '\t' || c = '\n' || c = '\r' || c = '\x0b' || c = '\x0c'

/-- Python `str.strip()` on a character list: drop whitespace from both ends. -/
def pyStripChars (l : List Char) : List Char :=
  ((l.dropWhile pyIsSpace).reverse.dropWhile pyIsSpace).reverse

/-- Python `str.strip()`. -/
def pyStrip (s : String) : String :=
  ⟨pyStripChars s.data⟩

/-- Python `str.lower()` (ASCII letters; non-letters unchanged). -/
def pyLower (s : String) : String :=
  ⟨s.data.map Char.toLower⟩

/-- Python character slicing `s[n:]`. -/
def pyDrop (s : String) (n : Nat) : String :=
  ⟨s.data.drop n⟩

/-- Splitting a character list on a separator character, keeping empty
pieces, as Python's `str.split` with a one-character separator does. -/
def splitCharAux (sep : Char) : List Char → List (List Char)
  | [] => [[]]
  | c :: rest =>
    match splitCharAux sep rest with
    | r :: rs => if c = sep then [] :: r :: rs else (c :: r) :: rs
    | [] => [[]]

/-- Python `s.split(sep)` for a one-character separator. -/
def pySplitChar (sep : Char) (s : String) : List String :=
  (splitCharAux sep s.data).map (fun l => ⟨l⟩)

/-- The namedtuple `PGNElement(name, text)` of pgn2pdf.py. -/
structure PGNElement where
  name : String
  text : String
deriving DecidableEq, Repr

/-- Error outcomes of the source.  Each constructor corresponds to one
failure site of pgn2pdf.py, named after the spec's error taxonomy:
`headerSyntax` is the `ValueError` of `parse_headers`; `malformedMovetext`
is the unpacking `ValueError` in `parse_game`'s move fallback (the only way
the tokenizer loop can fail); `unknownElement` is the `ValueError` of
`write_game`; `unbalancedVariation` is the `IndexError` of
`variation_stack.pop()` on an empty stack; `indexError` is the `IndexError`
of `text[0]` on an empty comment or of `current_elt` past the end;
`attributeError` is `None.lstrip()` when `parse_headers` returned no body;
`keyError` is a missing `white`/`black` header in `make_name`;
`formatError` is the `TypeError` (not enough arguments) or `ValueError`
(bad or incomplete specifier) raised by the `line % args` formatting in
`TEXWriter.write` when a no-argument line contains a conversion
specifier other than a doubled percent sign. -/
inductive Err where
  | headerSyntax (line : String)
  | malformedMovetext
  | unknownElement (name : String)
  | unbalancedVariation
  | indexError
  | attributeError
  | keyError
  | formatError
deriving DecidableEq, Repr

/-- Model of `PGNParser.header_re.match(line)` for the regex
`' *\[([^ ]+) "([^"]+)"\]'`: optional leading spaces, `[`, a nonempty run
of non-space characters (the key), one space, `"`, a nonempty run of
non-quote characters (the value), `"]`.  `re.match` anchors at the start
only, so trailing characters are ignored.  Both `[^ ]+` and `[^"]+` are
followed by a character they cannot match, so the greedy run is the only
candidate and no backtracking arises. -/
def headerMatch (line : String) : Option (String × String) :=
  match line.data.dropWhile (fun c => c = ' ') with
  | c :: s1 =>
    if c = '[' then
      let k := s1.takeWhile (fun d => d ≠ ' ')
      if k.isEmpty then none
      else
        match s1.drop k.length with
        | ' ' :: q :: s2 =>
          if q = '"' then
            let v := s2.takeWhile (fun d => d ≠ '"')
            if v.isEmpty then none
            else
              match s2.drop v.length with
              | _ :: b :: _ => if b = ']' then some (⟨k⟩, ⟨v⟩) else none
              | _ => none
          else none
        | _ => none
    else none
  | [] => none

/-- Python dict assignment `d[k] = v` on an association list: overwrite the
existing binding for `k`, else append. -/
def dictInsert (m : List (String × String)) (k v : String) : List (String × String) :=
  if m.any (fun kv => kv.1 = k) then
    m.map (fun kv => if kv.1 = k then (k, v) else kv)
  else m ++ [(k, v)]

/-- Python `d[k]`-style lookup returning an `Option`. -/
def dictFind (m : List (String × String)) (k : String) : Option String :=
  (m.find? (fun kv => kv.1 = k)).map (fun kv => kv.2)

/-- The loop of `PGNParser.parse_headers` over the lines of the input.
A blank line stops scanning and returns the remaining lines re-joined as
the movetext body; a non-matching line raises; a matching line is inserted
with its key lower-cased.  Falling off the end of the lines returns
`none` as the body (Python: the function returns `None`). -/
def parseHeadersAux : List String → List (String × String) →
    Except Err (List (String × String) × Option String)
  | [], hdrs => .ok (hdrs, none)
  | line :: rest, hdrs =>
    if pyStrip line = "" then .ok (hdrs, some (String.intercalate "\n" rest))
    else
      match headerMatch line with
      | none => .error (.headerSyntax line)
      | some kv => parseHeadersAux rest (dictInsert hdrs (pyLower kv.1) kv.2)

/-- `PGNParser.parse_headers`: split the content on newlines and scan. -/
def parse_headers (content : String) :
    Except Err (List (String × String) × Option String) :=
  parseHeadersAux (pySplitChar '\n' content) []

/-- Comment rule `{([^}]*)}` of `game_regexes`: a brace, then the maximal
run of non-`}` characters (the captured text), then the closing brace. -/
def matchComment (s : List Char) : Option (PGNElement × List Char) :=
  match s with
  | c :: rest =>
    if c = '\x7b' then
      match rest.dropWhile (fun d => d ≠ '\x7d') with
      | _ :: rest2 => some (⟨"comment", ⟨rest.takeWhile (fun d => d ≠ '\x7d')⟩⟩, rest2)
      | [] => none
    else none
  | [] => none

/-- Rule `\(` of `game_regexes`. -/
def matchStartVar (s : List Char) : Option (PGNElement × List Char) :=
  match s with
  | c :: rest => if c = '(' then some (⟨"start-variation", ""⟩, rest) else none
  | [] => none

/-- Rule `\)` of `game_regexes`. -/
def matchEndVar (s : List Char) : Option (PGNElement × List Char) :=
  match s with
  | c :: rest => if c = ')' then some (⟨"end-variation", ""⟩, rest) else none
  | [] => none

/-- Characters of the evaluation class: inside the regex class the hyphen
between plus and slash denotes the character range from plus (0x2B)
through slash (0x2F) — plus, comma, hyphen, period, slash — and the
equals sign is a further member. -/
def isEvalChar (c : Char) : Bool :=
  ('+' ≤ c && c ≤ '/') || c = '='

/-- Evaluation rule of `game_regexes`: greedily match one to three
characters drawn from the evaluation symbol set (at most three of the
maximal run). -/
def matchEval (s : List Char) : Option (PGNElement × List Char) :=
  let run := s.takeWhile isEvalChar
  if run.isEmpty then none
  else
    let took := run.take 3
    some (⟨"evaluation", ⟨took⟩⟩, s.drop took.length)

/-- Rule `((1-0)|(0-1)|(1/2-1/2))` of `game_regexes`: the three literal
result tokens, tried in order. -/
def matchResult (s : List Char) : Option (PGNElement × List Char) :=
  if s.take 3 = ['1', '-', '0'] then some (⟨"result", "1-0"⟩, s.drop 3)
  else if s.take 3 = ['0', '-', '1'] then some (⟨"result", "0-1"⟩, s.drop 3)
  else if s.take 7 = ['1', '/', '2', '-', '1', '/', '2'] then
    some (⟨"result", "1/2-1/2"⟩, s.drop 7)
  else none

/-- The ordered first-match-wins scan over `game_regexes`. -/
def tryGameRegexes (s : List Char) : Option (PGNElement × List Char) :=
  match matchComment s with
  | some r => some r
  | none =>
    match matchStartVar s with
    | some r => some r
    | none =>
      match matchEndVar s with
      | some r => some r
      | none =>
        match matchEval s with
        | some r => some r
        | none => matchResult s

/-- The loop of `PGNParser.parse_game`, one fuel unit per iteration.
Each iteration left-strips whitespace, stops on empty input, tries the
game regexes in order, and otherwise falls back to
`game_content.split(None, 1)`: the next whitespace-delimited token becomes
a `move` element.  When that split yields fewer than two parts (no
non-whitespace text remains after the token), the Python tuple unpacking
raises — modelled as `Err.malformedMovetext`.  `none` means the fuel was
exhausted before the loop finished. -/
def parseGameAux : Nat → List Char → Option (Except Err (List PGNElement))
  | 0, _ => none
  | fuel + 1, s =>
    let t := s.dropWhile pyIsSpace
    if t.isEmpty then some (.ok [])
    else
      match tryGameRegexes t with
      | some er => (parseGameAux fuel er.2).map (Except.map (fun l => er.1 :: l))
      | none =>
        let tok := t.takeWhile (fun c => !pyIsSpace c)
        let rest := (t.dropWhile (fun c => !pyIsSpace c)).dropWhile pyIsSpace
        if rest.isEmpty then some (.error .malformedMovetext)
        else (parseGameAux fuel rest).map (Except.map (fun l => PGNElement.mk "move" ⟨tok⟩ :: l))

/-- `PGNParser.parse_game` on the movetext body, with enough fuel for one
iteration per input character plus the final emptiness check. -/
def parse_game (body : String) : Option (Except Err (List PGNElement)) :=
  parseGameAux (body.length + 1) body.data

/-- The loop of `PGNParser.combine_moves`: buffer consecutive `move`
elements; on reaching a non-move element, flush the buffer (joined with
single spaces) as one `moves` element before it.  Note the source has no
flush after the loop: a buffer still open at the end of the sequence is
discarded. -/
def combineAux : List String → List PGNElement → List PGNElement
  | _, [] => []
  | cur, e :: rest =>
    if e.name = "move" then combineAux (cur ++ [e.text]) rest
    else if cur.isEmpty then e :: combineAux [] rest
    else ⟨"moves", String.intercalate " " cur⟩ :: e :: combineAux [] rest

/-- `PGNParser.combine_moves`. -/
def combine_moves (game : List PGNElement) : List PGNElement :=
  combineAux [] game

/-- The headers and final element sequence built by `PGNParser.__init__`:
parse the headers, tokenize the body, aggregate moves, and append the
`end` sentinel.  A `None` body (no blank line in the input) makes
`parse_game(None)` raise `AttributeError` on `None.lstrip()`. -/
def pgnParser (content : String) :
    Option (Except Err (List (String × String) × List PGNElement)) :=
  match parse_headers content with
  | .error e => some (.error e)
  | .ok (_, none) => some (.error .attributeError)
  | .ok (hdrs, some body) =>
    (parse_game body).map (Except.map (fun raw =>
      (hdrs, combine_moves raw ++ [⟨"end", ""⟩])))

/-- One call to `TEXWriter.write`: the formatted line text and the
`paragraph` / `trailing_newline` keyword flags.  A `paragraph` write emits
a blank line before and after the wrapped line; `trailing_newline` emits
one after only. -/
structure WriteEvt where
  line : String
  paragraph : Bool
  trailingNewline : Bool
deriving DecidableEq, Repr

/-- The mutable state of a `TEXWriter` plus its output sink: the list of
write events so far, the `itertools.count` variation counter, and the
variation stack (top of stack first; the Python list grows and pops at its
tail, indexed by `[-1]`). -/
structure TexState where
  out : List WriteEvt
  variation_counter : Nat
  variation_stack : List String
deriving DecidableEq, Repr

/-- The initial state of `TEXWriter.__init__`: empty sink, counter at 0,
empty variation stack. -/
def texInit : TexState :=
  ⟨[], 0, []⟩

/-- `TEXWriter.write` with the line already `%`-formatted: record the
event.  Call sites with format arguments reach this directly (their fixed
format strings substitute the arguments and cannot fail); call sites
without arguments go through `writeNA` below, which models `line % ()`. -/
def write (st : TexState) (line : String) (paragraph trailingNewline : Bool) : TexState :=
  ⟨st.out ++ [⟨line, paragraph, trailingNewline⟩], st.variation_counter, st.variation_stack⟩

/-- Python `line % ()` character scan: a doubled percent collapses to one
literal percent; any other percent-led conversion specifier (or a percent
ending the string) raises, since there is no argument to consume. -/
def pyFormatChars : List Char → Except Err (List Char)
  | [] => .ok []
  | c :: rest =>
    if c = '%' then
      match rest with
      | c2 :: rest2 =>
        if c2 = '%' then (pyFormatChars rest2).map (fun t => '%' :: t)
        else .error .formatError
      | [] => .error .formatError
    else (pyFormatChars rest).map (fun t => c :: t)

/-- Python `line % ()` on a string. -/
def pyFormatNoArgs (line : String) : Except Err String :=
  (pyFormatChars line.data).map (fun l => ⟨l⟩)

/-- `TEXWriter.write` at a call site with no format arguments: apply
`line % ()`, then record the event. -/
def writeNA (st : TexState) (line : String) (paragraph trailingNewline : Bool) :
    Except Err TexState :=
  (pyFormatNoArgs line).map (fun l => write st l paragraph trailingNewline)

/-- `TEXWriter.cur_var`: top of the variation stack, or `main` when empty. -/
def cur_var (st : TexState) : String :=
  st.variation_stack.headD "main"

/-- `TEXWriter.start` — the fixed document preamble (each line written
without format arguments). -/
def texStart (st : TexState) : Except Err TexState := do
  let s1 ← writeNA st "\\documentclass[a4paper]\x7barticle\x7d" false false
  let s2 ← writeNA s1 "\\usepackage\x7bxskak\x7d" false false
  let s3 ← writeNA s2 "\\setlength\x7b\\parskip\x7d\x7b1em\x7d" false false
  let s4 ← writeNA s3 "\\begin\x7bdocument\x7d" false false
  let s5 ← writeNA s4 "" false false
  writeNA s5 "\\newchessgame[id=main]" false false

/-- `TEXWriter.write_title`. -/
def write_title (st : TexState) (title : String) : TexState :=
  write st ("\\section\x7b" ++ title ++ "\x7d") false false

/-- `TEXWriter.make_diagram` (a no-argument write). -/
def make_diagram (st : TexState) : Except Err TexState :=
  writeNA st "\\chessboard" true false

/-- `TEXWriter.start_variation`: allocate `var<counter>`, emit the
`newchessgame` command keyed to the current variation, then push. -/
def start_variation (st : TexState) : TexState :=
  let var := "var" ++ toString st.variation_counter
  let st1 := write st ("\\newchessgame[newvar=" ++ cur_var st ++ ", id=" ++ var ++ "]") false false
  ⟨st1.out, st1.variation_counter + 1, var :: st1.variation_stack⟩

/-- `TEXWriter.end_variation`: pop the stack (an `IndexError` on an empty
stack, the spec's `UnbalancedVariationError`), then emit the
`resumechessgame` command for the new current variation, with a trailing
newline exactly when the stack became empty. -/
def end_variation (st : TexState) : Except Err TexState :=
  match st.variation_stack with
  | [] => .error .unbalancedVariation
  | _ :: rest =>
    let st1 : TexState := ⟨st.out, st.variation_counter, rest⟩
    .ok (write st1 ("\\resumechessgame[id=" ++ rest.headD "main" ++ "]") false rest.isEmpty)

/-- `TEXWriter.setup_board`. -/
def setup_board (st : TexState) (fen : String) : TexState :=
  write st ("\\fenboard\x7b" ++ fen ++ "\x7d") false false

/-- `TEXWriter.write_moves`. -/
def write_moves (st : TexState) (moves : String) : TexState :=
  write st ("\\mainline \x7b " ++ moves ++ " \x7d") false false

/-- `TEXWriter.end` — the fixed closing marker (the sink close is I/O). -/
def texEnd (st : TexState) : Except Err TexState := do
  let s1 ← writeNA st "" false false
  writeNA s1 "\\end\x7bdocument\x7d" false false

/-- One iteration of the line loop at the end of `PGN2PDF.parse_comment`:
strip the line, skip it when blank, otherwise write it as a paragraph (a
no-argument write, so a stray percent sign in the line raises). -/
def writeLineStep (s : TexState) (l : String) : Except Err TexState :=
  if pyStrip l = "" then .ok s else writeNA s (pyStrip l) true false

/-- The line loop at the end of `PGN2PDF.parse_comment`: split the comment
text on newlines and run the per-line step over the pieces; the first
raising line aborts the loop. -/
def writeCommentLines (text : String) (st : TexState) : Except Err TexState :=
  (pySplitChar '\n' text).foldlM writeLineStep st

/-- The diagram-marker handling plus line loop of `PGN2PDF.parse_comment`
for a paragraph-style comment: when the text starts with the literal
marker `(D)`, a diagram command is emitted first and the marker is
stripped (with surrounding whitespace); then the lines are written. -/
def commentParaState (text : String) (st : TexState) : Except Err TexState :=
  if "(D)".data.isPrefixOf text.data then
    match make_diagram st with
    | .error er => .error er
    | .ok st1 => writeCommentLines (pyStrip (pyDrop text 3)) st1
  else writeCommentLines text st

/-- `PGN2PDF.parse_comment`.  `next?` is `self.current_elt`, the element
immediately after the comment (the generator's cursor has already advanced
past the comment itself); `none` means the cursor is past the end, where
reading `current_elt` raises `IndexError`.  The returned flag records
whether the one-element lookahead consumed an `end-variation` (Python:
`advance_game_index`).  An empty comment text makes `text[0]` raise
`IndexError`. -/
def parse_comment (text : String) (next? : Option PGNElement) (st : TexState) :
    Except Err (TexState × Bool) :=
  match text.data with
  | [] => .error .indexError
  | c :: _ =>
    if c.isLower then
      match writeNA st text false false with
      | .error er => .error er
      | .ok st1 => .ok (st1, false)
    else
      match next? with
      | none => .error .indexError
      | some next =>
        if next.name = "end-variation" then
          match writeNA st ")" false false with
          | .error er => .error er
          | .ok st1 =>
            match commentParaState text st1 with
            | .error er => .error er
            | .ok st3 =>
              match end_variation st3 with
              | .error er => .error er
              | .ok st4 =>
                match writeNA st4 "" false false with
                | .error er => .error er
                | .ok st5 => .ok (st5, true)
        else
          match commentParaState text st with
          | .error er => .error er
          | .ok st3 => .ok (st3, false)

/-- The body of one iteration of the `PGN2PDF.write_game` loop,
dispatching on the element name in the source's order.  `next?` is the
element after `e` (the generator cursor already points past `e`).
Returns the new writer state, whether the comment lookahead consumed the
following `end-variation` (Python: `advance_game_index` inside
`parse_comment`), and whether the loop breaks (the `end` sentinel). -/
def writeGameStep (e : PGNElement) (next? : Option PGNElement) (st : TexState) :
    Except Err (TexState × Bool × Bool) :=
  if e.name = "moves" then .ok (write_moves st e.text, false, false)
  else if e.name = "comment" then
    match parse_comment e.text next? st with
    | .error er => .error er
    | .ok (st2, skipped) => .ok (st2, skipped, false)
  else if e.name = "evaluation" then
    match writeNA st e.text false false with
    | .error er => .error er
    | .ok st2 => .ok (st2, false, false)
  else if e.name = "result" then
    match writeNA st e.text true false with
    | .error er => .error er
    | .ok st2 => .ok (st2, false, false)
  else if e.name = "start-variation" then
    match writeNA st "(" false false with
    | .error er => .error er
    | .ok st1 => .ok (start_variation st1, false, false)
  else if e.name = "end-variation" then
    match writeNA st ")" false false with
    | .error er => .error er
    | .ok st1 =>
      match end_variation st1 with
      | .error er => .error er
      | .ok st2 => .ok (st2, false, false)
  else if e.name = "end" then .ok (st, false, true)
  else .error (.unknownElement e.name)

/-- The element loop of `PGN2PDF.write_game`: run the per-element step
with one-element lookahead; stop on the `end` sentinel; when the comment
lookahead consumed the following `end-variation`, resume after it. -/
def writeGameAux : List PGNElement → TexState → Except Err TexState
  | [], st => .ok st
  | e :: rest, st =>
    match writeGameStep e rest.head? st with
    | .error er => .error er
    | .ok (st2, skipped, stop) =>
      if stop then .ok st2
      else if skipped then
        match rest with
        | [] => .ok st2
        | _ :: rest2 => writeGameAux rest2 st2
      else writeGameAux rest st2

/-- `PGN2PDF.write_game` run from a given writer state over the whole
element sequence. -/
def write_game (st : TexState) (game : List PGNElement) : Except Err TexState :=
  writeGameAux game st

/-- `PGN2PDF.make_name`: the header value for the colour, truncated at the
first comma (`KeyError` when the header is missing). -/
def make_name (hdrs : List (String × String)) (color : String) : Except Err String :=
  match dictFind hdrs color with
  | none => .error .keyError
  | some v => .ok ⟨v.data.takeWhile (fun c => c ≠ ',')⟩

/-- `PGN2PDF.make_title`: `white - black`, extended with the site and the
year part of the date when both headers are present. -/
def make_title (hdrs : List (String × String)) : Except Err String := do
  let w ← make_name hdrs "white"
  let b ← make_name hdrs "black"
  let base := w ++ " - " ++ b
  match dictFind hdrs "site", dictFind hdrs "date" with
  | some site, some date =>
    .ok (base ++ " " ++ site ++ " " ++ String.mk (date.data.takeWhile (fun c => c ≠ '.')))
  | _, _ => .ok base

/-- `PGN2PDF.convert`: preamble, title, optional initial board setup and
diagram from a `fen` header, the game, and the closing marker.  Returns
the sink's event list. -/
def convert (hdrs : List (String × String)) (game : List PGNElement) :
    Except Err (List WriteEvt) := do
  let st1 ← texStart texInit
  let title ← make_title hdrs
  let st2 := write_title st1 title
  let st3 ← match dictFind hdrs "fen" with
    | some fen => make_diagram (setup_board st2 fen)
    | none => .ok st2
  let st4 ← writeGameAux game st3
  let st5 ← texEnd st4
  .ok st5.out

/-- The core pipeline of `PGN2PDF.__init__` / `PGN2PDF.convert` on the raw
input text: parse headers and movetext, aggregate, generate the document.
The outer `Option` is the tokenizer fuel (see `parse_game`). -/
def runPGN2PDF (content : String) : Option (Except Err (List WriteEvt)) :=
  match pgnParser content with
  | none => none
  | some (.error e) => some (.error e)
  | some (.ok (hdrs, game)) => some (convert hdrs game)

/-- Occurrences of elements with a given name in a sequence. -/
def countElt (n : String) (g : List PGNElement) : Nat :=
  (g.filter (fun e => e.name = n)).length

/-- The optional write event of one comment line: nothing for a blank
line, a paragraph write of the trimmed line otherwise. -/
def lineEvt (l : String) : Option WriteEvt :=
  if pyStrip l = "" then none else some ⟨pyStrip l, true, false⟩

/-- The paragraph write events produced from a comment's lines: one event
per non-blank line, trimmed, with the `paragraph` flag set. -/
def lineEvts (u : String) : List WriteEvt :=
  (pySplitChar '\n' u).filterMap lineEvt

/-- All output a paragraph-style comment produces before the generator
moves on: a diagram command when the text carries the `(D)` marker
(stripped from the text), then the paragraph line events. -/
def commentParaEvents (t : String) : List WriteEvt :=
  if "(D)".data.isPrefixOf t.data then
    ⟨"\\chessboard", true, false⟩ :: lineEvts (pyStrip (pyDrop t 3))
  else lineEvts t

/-- The element sequence of the spec's reordering scenario. -/
def c1DemoGame : List PGNElement :=
  [⟨"moves", "e4"⟩, ⟨"start-variation", ""⟩, ⟨"moves", "d4"⟩,
   ⟨"comment", "Interesting idea."⟩, ⟨"end-variation", ""⟩]

/-- The write events the generator emits for `c1DemoGame`. -/
def c1DemoOut : List WriteEvt :=
  [⟨"\\mainline \x7b e4 \x7d", false, false⟩,
   ⟨"(", false, false⟩,
   ⟨"\\newchessgame[newvar=main, id=var0]", false, false⟩,
   ⟨"\\mainline \x7b d4 \x7d", false, false⟩,
   ⟨")", false, false⟩,
   ⟨"Interesting idea.", true, false⟩,
   ⟨"\\resumechessgame[id=main]", false, true⟩,
   ⟨"", false, false⟩]

/-- The headers accumulated by folding header insertion (lower-cased keys)
over a block of lines. -/
def hdrFold (m : List (String × String)) (ls : List String) : List (String × String) :=
  ls.foldl (fun acc line =>
    match headerMatch line with
    | some kv => dictInsert acc (pyLower kv.1) kv.2
    | none => acc) m

/-- Dropping a prefix by a predicate never lengthens a list. -/
theorem lengthDropWhileLe (p : Char → Bool) (l : List Char) :
    (l.dropWhile p).length ≤ l.length := by
  induction l with
  | nil => simp
  | cons c t ih =>
    rw [List.dropWhile_cons]
    by_cases h : p c
    · simp only [h, if_true, List.length_cons]
      omega
    · simp [h]

/-- The head surviving a `dropWhile` fails the predicate. -/
theorem dropWhileHeadNot (p : Char → Bool) (l : List Char) (c : Char) (t : List Char)
    (h : l.dropWhile p = c :: t) : p c = false := by
  induction l with
  | nil => simp at h
  | cons a l' ih =>
    rw [List.dropWhile_cons] at h
    by_cases ha : p a
    · simp only [ha, if_true] at h
      exact ih h
    · simp only [ha, if_false] at h
      cases h
      simpa using ha

/-- Taking a prefix by a predicate never lengthens a list. -/
theorem lengthTakeWhileLe (p : Char → Bool) (l : List Char) :
    (l.takeWhile p).length ≤ l.length := by
  induction l with
  | nil => simp
  | cons c t ih =>
    rw [List.takeWhile_cons]
    by_cases h : p c
    · simp only [h, if_true, List.length_cons]
      omega
    · simp [h]

/-- A successful comment match consumes at least the two braces. -/
theorem matchCommentShrinks (s : List Char) (e : PGNElement) (r : List Char)
    (h : matchComment s = some (e, r)) : r.length < s.length := by
  match s with
  | [] => simp [matchComment] at h
  | c :: rest =>
    simp only [matchComment] at h
    by_cases hc : c = '\x7b'
    · simp only [hc, if_true] at h
      match hd : rest.dropWhile (fun d => d ≠ '\x7d') with
      | [] => rw [hd] at h; simp at h
      | d :: t =>
        rw [hd] at h
        simp only [Option.some.injEq, Prod.mk.injEq] at h
        obtain ⟨-, hr⟩ := h
        subst hr
        have hlen := lengthDropWhileLe (fun d => d ≠ '\x7d') rest
        rw [hd] at hlen
        simp only [List.length_cons] at hlen ⊢
        omega
    · simp [hc] at h

/-- A successful open-parenthesis match consumes one character. -/
theorem matchStartVarShrinks (s : List Char) (e : PGNElement) (r : List Char)
    (h : matchStartVar s = some (e, r)) : r.length < s.length := by
  match s with
  | [] => simp [matchStartVar] at h
  | c :: rest =>
    simp only [matchStartVar] at h
    by_cases hc : c = '('
    · simp only [hc, if_true, Option.some.injEq, Prod.mk.injEq] at h
      obtain ⟨-, hr⟩ := h
      subst hr
      simp
    · simp [hc] at h

/-- A successful close-parenthesis match consumes one character. -/
theorem matchEndVarShrinks (s : List Char) (e : PGNElement) (r : List Char)
    (h : matchEndVar s = some (e, r)) : r.length < s.length := by
  match s with
  | [] => simp [matchEndVar] at h
  | c :: rest =>
    simp only [matchEndVar] at h
    by_cases hc : c = ')'
    · simp only [hc, if_true, Option.some.injEq, Prod.mk.injEq] at h
      obtain ⟨-, hr⟩ := h
      subst hr
      simp
    · simp [hc] at h

/-- A successful evaluation match consumes one to three characters. -/
theorem matchEvalShrinks (s : List Char) (e : PGNElement) (r : List Char)
    (h : matchEval s = some (e, r)) : r.length < s.length := by
  simp only [matchEval] at h
  by_cases hrun : (s.takeWhile isEvalChar).isEmpty
  · simp [hrun] at h
  · simp only [hrun, Bool.false_eq_true, if_false, Option.some.injEq, Prod.mk.injEq] at h
    obtain ⟨-, hr⟩ := h
    subst hr
    have hne : s.takeWhile isEvalChar ≠ [] := by
      simpa [List.isEmpty_iff] using hrun
    have hpos : 0 < (s.takeWhile isEvalChar).length := List.length_pos.mpr hne
    have hsle : (s.takeWhile isEvalChar).length ≤ s.length := lengthTakeWhileLe isEvalChar s
    have htake : 0 < ((s.takeWhile isEvalChar).take 3).length := by
      simp only [List.length_take]
      omega
    rw [List.length_drop]
    omega

/-- A successful result match consumes three or seven characters. -/
theorem matchResultShrinks (s : List Char) (e : PGNElement) (r : List Char)
    (h : matchResult s = some (e, r)) : r.length < s.length := by
  simp only [matchResult] at h
  by_cases h3 : s.take 3 = ['1', '-', '0']
  · have hs : s.length ≥ 3 := by
      have := congrArg List.length h3
      simp [List.length_take] at this
      omega
    simp only [h3, if_true, Option.some.injEq, Prod.mk.injEq] at h
    obtain ⟨-, hr⟩ := h
    subst hr
    rw [List.length_drop]
    omega
  · simp only [h3, if_false] at h
    by_cases h3b : s.take 3 = ['0', '-', '1']
    · have hs : s.length ≥ 3 := by
        have := congrArg List.length h3b
        simp [List.length_take] at this
        omega
      simp only [h3b, if_true, Option.some.injEq, Prod.mk.injEq] at h
      obtain ⟨-, hr⟩ := h
      subst hr
      rw [List.length_drop]
      omega
    · simp only [h3b, if_false] at h
      by_cases h7 : s.take 7 = ['1', '/', '2', '-', '1', '/', '2']
      · have hs : s.length ≥ 7 := by
          have := congrArg List.length h7
          simp [List.length_take] at this
          omega
        simp only [h7, if_true, Option.some.injEq, Prod.mk.injEq] at h
        obtain ⟨-, hr⟩ := h
        subst hr
        rw [List.length_drop]
        omega
      · simp [h7] at h

/-- Every rule of the ordered regex table consumes at least one character. -/
theorem tryGameRegexesShrinks (s : List Char) (e : PGNElement) (r : List Char)
    (h : tryGameRegexes s = some (e, r)) : r.length < s.length := by
  simp only [tryGameRegexes] at h
  match h1 : matchComment s with
  | some p => rw [h1] at h; cases h; exact matchCommentShrinks s _ _ h1
  | none =>
    rw [h1] at h
    match h2 : matchStartVar s with
    | some p => rw [h2] at h; cases h; exact matchStartVarShrinks s _ _ h2
    | none =>
      rw [h2] at h
      match h3 : matchEndVar s with
      | some p => rw [h3] at h; cases h; exact matchEndVarShrinks s _ _ h3
      | none =>
        rw [h3] at h
        match h4 : matchEval s with
        | some p => rw [h4] at h; cases h; exact matchEvalShrinks s _ _ h4
        | none =>
          rw [h4] at h
          exact matchResultShrinks s _ _ h

/-- With more fuel than input characters, the tokenizer loop finishes:
it consumes the whole input into an element list or fails with
`malformedMovetext`.  The induction re-traces the source loop's forward
progress: every iteration strictly shortens the remaining text. -/
theorem parseGameAuxTotal : ∀ (fuel : Nat) (s : List Char), s.length < fuel →
    (∃ l, parseGameAux fuel s = some (Except.ok l)) ∨
      parseGameAux fuel s = some (Except.error Err.malformedMovetext) := by
  intro fuel
  induction fuel with
  | zero => intro s hs; omega
  | succ n ih =>
    intro s hs
    have htle : (s.dropWhile pyIsSpace).length ≤ s.length := lengthDropWhileLe pyIsSpace s
    by_cases ht : (s.dropWhile pyIsSpace).isEmpty
    · left
      exact ⟨[], by simp [parseGameAux, ht]⟩
    · match hm : tryGameRegexes (s.dropWhile pyIsSpace) with
      | some (e, r) =>
        have hr : r.length < (s.dropWhile pyIsSpace).length := tryGameRegexesShrinks _ _ _ hm
        rcases ih r (by omega) with ⟨l, hl⟩ | hl
        · left
          exact ⟨e :: l, by simp [parseGameAux, ht, hm, hl, Except.map]⟩
        · right
          simp [parseGameAux, ht, hm, hl, Except.map]
      | none =>
        match hsd : s.dropWhile pyIsSpace with
        | [] => rw [hsd] at ht; simp at ht
        | c :: t' =>
          have hc : pyIsSpace c = false := dropWhileHeadNot pyIsSpace s c t' hsd
          have h1 : ((s.dropWhile pyIsSpace).dropWhile (fun x => !pyIsSpace x)).length ≤ t'.length := by
            rw [hsd, List.dropWhile_cons]
            simp only [hc, Bool.not_false, if_true]
            exact lengthDropWhileLe _ t'
          have h2 : (((s.dropWhile pyIsSpace).dropWhile (fun x => !pyIsSpace x)).dropWhile pyIsSpace).length ≤ t'.length :=
            le_trans (lengthDropWhileLe _ _) h1
          have h3 : t'.length < s.length := by
            rw [hsd] at htle
            simp only [List.length_cons] at htle
            omega
          by_cases hrest : (((s.dropWhile pyIsSpace).dropWhile (fun x => !pyIsSpace x)).dropWhile pyIsSpace).isEmpty
          · right
            simp [parseGameAux, ht, hm, hrest]
          · rcases ih (((s.dropWhile pyIsSpace).dropWhile (fun x => !pyIsSpace x)).dropWhile pyIsSpace) (by omega) with ⟨l, hl⟩ | hl
            · left
              exact ⟨⟨"move", ⟨(s.dropWhile pyIsSpace).takeWhile (fun x => !pyIsSpace x)⟩⟩ :: l,
                by simp [parseGameAux, ht, hm, hrest, hl, Except.map]⟩
            · right
              simp [parseGameAux, ht, hm, hrest, hl, Except.map]

/-- Claim C2: for every input movetext string, the tokenizer terminates,
and either consumes the input entirely (producing a flat element
sequence) or fails with `MalformedMovetextError`.  The fuel
`s.length + 1` bounds the loop iterations; the theorem shows this fuel is
never exhausted (forward progress on every iteration), and that the only
failure outcome is `malformedMovetext`. -/
theorem tokenizer_totality (s : String) :
    (∃ elems, parse_game s = some (Except.ok elems)) ∨
      parse_game s = some (Except.error Err.malformedMovetext) :=
  parseGameAuxTotal (s.length + 1) s.data (Nat.lt_succ_self _)

/-- Claim C2 witness: the theorem applied to a concrete movetext, which
tokenizes completely. -/
theorem tokenizer_totality_witness :
    ((∃ elems, parse_game "1. e4 1-0" = some (Except.ok elems)) ∨
      parse_game "1. e4 1-0" = some (Except.error Err.malformedMovetext)) ∧
    parse_game "1. e4 1-0" =
      some (Except.ok [⟨"move", "1."⟩, ⟨"move", "e4"⟩, ⟨"result", "1-0"⟩]) :=
  ⟨tokenizer_totality "1. e4 1-0", rfl⟩

/-- Counting distributes over cons. -/
theorem countEltCons (n : String) (e : PGNElement) (g : List PGNElement) :
    countElt n (e :: g) = (if e.name = n then 1 else 0) + countElt n g := by
  simp only [countElt, List.filter_cons]
  by_cases h : e.name = n
  · simp [h, Nat.add_comm]
  · simp [h]

/-- No raw `move` element survives aggregation: the loop only ever emits
`moves` elements and the pass-through non-move elements. -/
theorem combineAuxNoMove : ∀ (g : List PGNElement) (cur : List String) (e : PGNElement),
    e ∈ combineAux cur g → e.name ≠ "move" := by
  intro g
  induction g with
  | nil => intro cur e he; simp [combineAux] at he
  | cons a rest ih =>
    intro cur e he
    simp only [combineAux] at he
    by_cases ha : a.name = "move"
    · rw [if_pos ha] at he
      exact ih _ _ he
    · rw [if_neg ha] at he
      by_cases hc : cur.isEmpty
      · rw [if_pos hc] at he
        rcases List.mem_cons.1 he with rfl | h
        · exact ha
        · exact ih _ _ h
      · rw [if_neg hc] at he
        rcases List.mem_cons.1 he with rfl | h
        · show ("moves" : String) ≠ "move"
          decide
        · rcases List.mem_cons.1 h with rfl | h2
          · exact ha
          · exact ih _ _ h2

/-- Aggregation is the identity on sequences without raw `move` elements:
the buffer stays empty, so every element passes straight through. -/
theorem combineAuxIdOnNoMove : ∀ (g : List PGNElement),
    (∀ e ∈ g, e.name ≠ "move") → combineAux [] g = g := by
  intro g
  induction g with
  | nil => intro h; rfl
  | cons a rest ih =>
    intro h
    have ha : a.name ≠ "move" := h a (List.mem_cons_self a rest)
    simp only [combineAux, if_neg ha, List.isEmpty_nil, if_pos]
    rw [ih (fun e he => h e (List.mem_cons_of_mem a he))]

/-- Claim C6: the Move Aggregator is idempotent — applied to its own
output (which contains no raw `move` elements), it is a no-op. -/
theorem aggregator_idempotent (g : List PGNElement) :
    combine_moves (combine_moves g) = combine_moves g :=
  combineAuxIdOnNoMove (combineAux [] g) (fun e he => combineAuxNoMove g [] e he)

/-- Claim C6 witness: idempotence at a concrete aggregated sequence. -/
theorem aggregator_idempotent_witness :
    combine_moves (combine_moves [⟨"move", "e4"⟩, ⟨"comment", "x"⟩, ⟨"move", "d4"⟩]) =
      combine_moves [⟨"move", "e4"⟩, ⟨"comment", "x"⟩, ⟨"move", "d4"⟩] ∧
    combine_moves [⟨"move", "e4"⟩, ⟨"comment", "x"⟩, ⟨"move", "d4"⟩] =
      [⟨"moves", "e4"⟩, ⟨"comment", "x"⟩] :=
  ⟨aggregator_idempotent [⟨"move", "e4"⟩, ⟨"comment", "x"⟩, ⟨"move", "d4"⟩], rfl⟩

/-- A sequence consisting only of raw `move` elements aggregates to the
empty sequence, whatever is already buffered: the loop ends with the run
still in the buffer and never flushes it. -/
theorem combineAuxAllMoves : ∀ (run : List PGNElement) (cur : List String),
    (∀ x ∈ run, x.name = "move") → combineAux cur run = [] := by
  intro run
  induction run with
  | nil => intro cur h; rfl
  | cons a rest ih =>
    intro cur h
    have ha : a.name = "move" := h a (List.mem_cons_self a rest)
    simp only [combineAux, if_pos ha]
    exact ih _ (fun x hx => h x (List.mem_cons_of_mem a hx))

/-- A nonempty buffered run flushed by a non-move element: the buffer and
the run's texts come out as a single space-joined `moves` element placed
before the non-move element. -/
theorem combineAuxRun : ∀ (run : List PGNElement) (cur : List String) (e : PGNElement)
    (rest : List PGNElement), (∀ x ∈ run, x.name = "move") → e.name ≠ "move" →
    (cur ++ run.map (fun x => x.text)) ≠ [] →
    combineAux cur (run ++ e :: rest) =
      ⟨"moves", String.intercalate " " (cur ++ run.map (fun x => x.text))⟩ ::
        e :: combineAux [] rest := by
  intro run
  induction run with
  | nil =>
    intro cur e rest hrun he hne
    simp only [List.map_nil, List.append_nil] at hne
    simp only [List.nil_append, combineAux, if_neg he]
    rw [if_neg (by simpa [List.isEmpty_iff] using hne)]
    simp
  | cons a run' ih =>
    intro cur e rest hrun he hne
    have ha : a.name = "move" := hrun a (List.mem_cons_self a run')
    have hstep : combineAux cur ((a :: run') ++ e :: rest) =
        combineAux (cur ++ [a.text]) (run' ++ e :: rest) := by
      rw [List.cons_append]
      simp only [combineAux, if_pos ha]
    rw [hstep, ih (cur ++ [a.text]) e rest (fun x hx => hrun x (List.mem_cons_of_mem a hx)) he
      (by simp)]
    simp

/-- Claim C4 (amended): runs of consecutive raw `move` elements are
replaced by a single space-joined `moves` element emitted where a
following non-move element ends the run; non-move elements pass through
in order; but a run that is still open at end-of-sequence is dropped, not
emitted. -/
theorem aggregator_runs (run : List PGNElement) (e : PGNElement) (rest : List PGNElement)
    (hrun : run ≠ []) (hm : ∀ x ∈ run, x.name = "move") (he : e.name ≠ "move") :
    combine_moves (run ++ e :: rest) =
      ⟨"moves", String.intercalate " " (run.map (fun x => x.text))⟩ ::
        e :: combine_moves rest ∧
    combine_moves run = [] ∧
    combine_moves (e :: rest) = e :: combine_moves rest := by
  refine ⟨?_, combineAuxAllMoves run [] hm, ?_⟩
  · have hne : ([] : List String) ++ run.map (fun x => x.text) ≠ [] := by
      simp only [List.nil_append]
      intro h
      exact hrun (List.map_eq_nil_iff.mp h)
    have h2 := combineAuxRun run [] e rest hm he hne
    simpa [combine_moves] using h2
  · simp [combine_moves, combineAux, he]

/-- Claim C4 counterexample: the claim as stated requires a run ending at
end-of-sequence to be emitted, but the aggregator drops it — the single
raw element `move "e4"` aggregates to the empty sequence rather than to
`moves "e4"`. -/
theorem aggregator_trailing_run_cex :
    combine_moves [⟨"move", "e4"⟩] = [] ∧
      combine_moves [⟨"move", "e4"⟩] ≠ [⟨"moves", "e4"⟩] := by
  exact ⟨rfl, by decide⟩

/-- Claim C4 witness: the amended theorem at a concrete two-move run
flushed by a comment. -/
theorem aggregator_runs_witness :
    combine_moves [⟨"move", "e4"⟩, ⟨"move", "e5"⟩, ⟨"comment", "c"⟩, ⟨"result", "1-0"⟩] =
      ⟨"moves", String.intercalate " " ["e4", "e5"]⟩ ::
        (⟨"comment", "c"⟩ : PGNElement) :: combine_moves [⟨"result", "1-0"⟩] ∧
    combine_moves [(⟨"move", "e4"⟩ : PGNElement), ⟨"move", "e5"⟩] = [] ∧
    combine_moves [(⟨"comment", "c"⟩ : PGNElement), ⟨"result", "1-0"⟩] =
      (⟨"comment", "c"⟩ : PGNElement) :: combine_moves [⟨"result", "1-0"⟩] :=
  aggregator_runs [⟨"move", "e4"⟩, ⟨"move", "e5"⟩] ⟨"comment", "c"⟩ [⟨"result", "1-0"⟩]
    (by decide) (by decide) (by decide)

/-- Claim C9: the tokenizer's comment rule accepts the empty braces `{}`
and produces a comment element with empty text, and the generator's
comment handler reads the first character unguarded, so an empty comment
text fails with an index error in every generator state, instead of
emitting an empty paragraph. -/
theorem empty_comment_crash :
    parse_game "\x7b\x7d" = some (Except.ok [⟨"comment", ""⟩]) ∧
      ∀ (next? : Option PGNElement) (st : TexState),
        parse_comment "" next? st = Except.error Err.indexError :=
  ⟨rfl, fun _ _ => rfl⟩

/-- Claim C9 witness: the crash at the initial writer state. -/
theorem empty_comment_crash_witness :
    parse_comment "" (some ⟨"end", ""⟩) texInit = Except.error Err.indexError :=
  empty_comment_crash.2 (some ⟨"end", ""⟩) texInit

/-- Claim C8: the end-to-end scenario — headers white, black, result and
movetext `1. e4 e5 2. Nf3 (comment) 1-0` produce exactly the preamble,
the title, one mainline-moves command, the paragraph comment, the result
paragraph, and the closing marker, in this order. -/
theorem end_to_end_scenario :
    runPGN2PDF "[White \"White\"]\n[Black \"Black\"]\n[Result \"1-0\"]\n\n1. e4 e5 2. Nf3 \x7bA solid reply.\x7d 1-0" =
      some (Except.ok
        [⟨"\\documentclass[a4paper]\x7barticle\x7d", false, false⟩,
         ⟨"\\usepackage\x7bxskak\x7d", false, false⟩,
         ⟨"\\setlength\x7b\\parskip\x7d\x7b1em\x7d", false, false⟩,
         ⟨"\\begin\x7bdocument\x7d", false, false⟩,
         ⟨"", false, false⟩,
         ⟨"\\newchessgame[id=main]", false, false⟩,
         ⟨"\\section\x7bWhite - Black\x7d", false, false⟩,
         ⟨"\\mainline \x7b 1. e4 e5 2. Nf3 \x7d", false, false⟩,
         ⟨"A solid reply.", true, false⟩,
         ⟨"1-0", true, false⟩,
         ⟨"", false, false⟩,
         ⟨"\\end\x7bdocument\x7d", false, false⟩]) :=
  rfl

/-- Unfolding lemma for the formatting scan on a non-empty list. -/
theorem pyFormatCharsCons (c : Char) (rest : List Char) :
    pyFormatChars (c :: rest) =
      (if c = '%' then
        match rest with
        | c2 :: rest2 =>
          if c2 = '%' then (pyFormatChars rest2).map (fun t => '%' :: t)
          else .error .formatError
        | [] => .error .formatError
      else (pyFormatChars rest).map (fun t => c :: t)) := by
  rw [pyFormatChars.eq_def]

/-- A percent-free character list passes the no-argument formatting
unchanged. -/
theorem pyFormatCharsId : ∀ (l : List Char), (∀ ch ∈ l, ch ≠ '%') →
    pyFormatChars l = .ok l := by
  intro l
  induction l with
  | nil => intro h; rfl
  | cons c rest ih =>
    intro h
    have hc : c ≠ '%' := h c (List.mem_cons_self c rest)
    rw [pyFormatCharsCons, if_neg hc]
    rw [ih (fun ch hch => h ch (List.mem_cons_of_mem c hch))]
    rfl

/-- A percent-free string passes `line % ()` unchanged. -/
theorem pyFormatNoArgsId (s : String) (h : ∀ ch ∈ s.data, ch ≠ '%') :
    pyFormatNoArgs s = .ok s := by
  simp only [pyFormatNoArgs, pyFormatCharsId s.data h]
  rfl

/-- A no-argument write of a percent-free line records the event. -/
theorem writeNAOk (st : TexState) (l : String) (p tn : Bool)
    (h : ∀ ch ∈ l.data, ch ≠ '%') :
    writeNA st l p tn = .ok (write st l p tn) := by
  simp only [writeNA, pyFormatNoArgsId l h]
  rfl

/-- Membership survives dropping a prefix. -/
theorem dropWhileMem (p : Char → Bool) : ∀ (l : List Char) (ch : Char),
    ch ∈ l.dropWhile p → ch ∈ l := by
  intro l
  induction l with
  | nil => intro ch h; simp at h
  | cons c rest ih =>
    intro ch h
    rw [List.dropWhile_cons] at h
    by_cases hc : p c
    · simp only [hc, if_true] at h
      exact List.mem_cons_of_mem c (ih ch h)
    · rw [if_neg (by simp [hc])] at h
      exact h

/-- Characters of a stripped list come from the original list. -/
theorem pyStripCharsMem (l : List Char) (ch : Char) (h : ch ∈ pyStripChars l) :
    ch ∈ l := by
  simp only [pyStripChars] at h
  rw [List.mem_reverse] at h
  have h2 := dropWhileMem pyIsSpace _ ch h
  rw [List.mem_reverse] at h2
  exact dropWhileMem pyIsSpace l ch h2

/-- Characters of a stripped string come from the original string. -/
theorem pyStripMem (s : String) (ch : Char) (h : ch ∈ (pyStrip s).data) :
    ch ∈ s.data :=
  pyStripCharsMem s.data ch h

/-- Characters of a split piece come from the split list. -/
theorem splitCharAuxMem (sep : Char) : ∀ (l : List Char) (p : List Char),
    p ∈ splitCharAux sep l → ∀ ch ∈ p, ch ∈ l := by
  intro l
  induction l with
  | nil =>
    intro p hp ch hch
    simp only [splitCharAux, List.mem_singleton] at hp
    subst hp
    simp at hch
  | cons c rest ih =>
    intro p hp ch hch
    simp only [splitCharAux] at hp
    match hsc : splitCharAux sep rest with
    | [] =>
      rw [hsc] at hp
      simp only [List.mem_singleton] at hp
      subst hp
      simp at hch
    | r :: rs =>
      rw [hsc] at hp
      have hp' : p ∈ (if c = sep then [] :: r :: rs else (c :: r) :: rs) := hp
      by_cases hcs : c = sep
      · rw [if_pos hcs] at hp'
        rcases List.mem_cons.1 hp' with rfl | hp2
        · simp at hch
        · have hmem : p ∈ splitCharAux sep rest := by rw [hsc]; exact hp2
          exact List.mem_cons_of_mem c (ih p hmem ch hch)
      · rw [if_neg hcs] at hp'
        rcases List.mem_cons.1 hp' with rfl | hp2
        · rcases List.mem_cons.1 hch with rfl | hch2
          · exact List.mem_cons_self ch rest
          · have hmem : r ∈ splitCharAux sep rest := by
              rw [hsc]; exact List.mem_cons_self r rs
            exact List.mem_cons_of_mem c (ih r hmem ch hch2)
        · have hmem : p ∈ splitCharAux sep rest := by
            rw [hsc]; exact List.mem_cons_of_mem r hp2
          exact List.mem_cons_of_mem c (ih p hmem ch hch)

/-- Characters of a split piece come from the original string. -/
theorem pySplitCharMem (sep : Char) (s : String) (l : String)
    (hl : l ∈ pySplitChar sep s) (ch : Char) (hch : ch ∈ l.data) : ch ∈ s.data := by
  simp only [pySplitChar, List.mem_map] at hl
  obtain ⟨p, hp, rfl⟩ := hl
  exact splitCharAuxMem sep s.data p hp ch hch

/-- A percent-free comment text has percent-free stripped lines. -/
theorem noPercentLines (u : String) (hp : ∀ ch ∈ u.data, ch ≠ '%') :
    ∀ l ∈ pySplitChar '\n' u, ∀ ch ∈ (pyStrip l).data, ch ≠ '%' :=
  fun l hl ch hch => hp ch (pySplitCharMem '\n' u l hl ch (pyStripMem l ch hch))

/-- A percent-free text stays percent-free after slicing and stripping. -/
theorem noPercentStripDrop (t : String) (n : Nat) (hp : ∀ ch ∈ t.data, ch ≠ '%') :
    ∀ ch ∈ (pyStrip (pyDrop t n)).data, ch ≠ '%' := by
  intro ch hch
  have h1 : ch ∈ t.data.drop n := pyStripMem (pyDrop t n) ch hch
  exact hp ch (List.drop_subset n t.data h1)

/-- A successful no-argument write leaves the variation stack alone. -/
theorem writeNAStack (st : TexState) (l : String) (p tn : Bool) (s2 : TexState)
    (h : writeNA st l p tn = .ok s2) : s2.variation_stack = st.variation_stack := by
  simp only [writeNA] at h
  match hf : pyFormatNoArgs l with
  | .error er => rw [hf] at h; simp [Except.map] at h
  | .ok f =>
    rw [hf] at h
    have h2 : Except.ok (write st f p tn) = Except.ok s2 := h
    simp only [Except.ok.injEq] at h2
    rw [← h2]
    rfl

/-- A successful comment-line step leaves the variation stack alone. -/
theorem writeLineStepStack (st : TexState) (l : String) (s2 : TexState)
    (h : writeLineStep st l = .ok s2) : s2.variation_stack = st.variation_stack := by
  simp only [writeLineStep] at h
  by_cases hb : pyStrip l = ""
  · rw [if_pos hb] at h
    simp only [Except.ok.injEq] at h
    rw [← h]
  · rw [if_neg hb] at h
    exact writeNAStack st (pyStrip l) true false s2 h

/-- A successful comment-line loop leaves the variation stack alone. -/
theorem foldWriteLinesStack : ∀ (ls : List String) (st s2 : TexState),
    List.foldlM writeLineStep st ls = .ok s2 → s2.variation_stack = st.variation_stack := by
  intro ls
  induction ls with
  | nil =>
    intro st s2 h
    rw [List.foldlM_nil] at h
    have h2 : Except.ok st = Except.ok s2 := h
    simp only [Except.ok.injEq] at h2
    rw [← h2]
  | cons a ls ih =>
    intro st s2 h
    rw [List.foldlM_cons] at h
    match hw : writeLineStep st a with
    | .error er =>
      rw [hw] at h
      have h2 : (Except.error er : Except Err TexState) = Except.ok s2 := h
      simp at h2
    | .ok s1 =>
      rw [hw] at h
      have h2 : List.foldlM writeLineStep s1 ls = Except.ok s2 := h
      rw [ih s1 s2 h2, writeLineStepStack st a s1 hw]

/-- A successful paragraph-comment body leaves the variation stack alone. -/
theorem commentParaStateStack (t : String) (st s2 : TexState)
    (h : commentParaState t st = .ok s2) : s2.variation_stack = st.variation_stack := by
  simp only [commentParaState] at h
  by_cases hd : "(D)".data.isPrefixOf t.data = true
  · rw [if_pos hd] at h
    match hm : make_diagram st with
    | .error er => rw [hm] at h; simp at h
    | .ok st1 =>
      rw [hm] at h
      have h2 : List.foldlM writeLineStep st1 (pySplitChar '\n' (pyStrip (pyDrop t 3))) =
          .ok s2 := h
      have h3 := foldWriteLinesStack (pySplitChar '\n' (pyStrip (pyDrop t 3))) st1 s2 h2
      have h4 := writeNAStack st "\\chessboard" true false st1 hm
      rw [h3, h4]
  · rw [if_neg hd] at h
    exact foldWriteLinesStack (pySplitChar '\n' t) st s2 h

/-- A successful `end_variation` pops exactly one variation. -/
theorem endVariationStack (st st4 : TexState) (h : end_variation st = .ok st4) :
    ∃ v, st.variation_stack = v :: st4.variation_stack := by
  simp only [end_variation] at h
  match hstk : st.variation_stack with
  | [] => rw [hstk] at h; simp at h
  | v :: vs =>
    rw [hstk] at h
    have h2 : Except.ok (write ⟨st.out, st.variation_counter, vs⟩
        ("\\resumechessgame[id=" ++ vs.headD "main" ++ "]") false vs.isEmpty) =
        Except.ok st4 := h
    simp only [Except.ok.injEq] at h2
    refine ⟨v, ?_⟩
    have h3 : st4.variation_stack = vs := by rw [← h2]; rfl
    rw [h3]

/-- The line-writing fold on percent-free lines appends exactly the line
events to the sink and leaves counter and stack untouched. -/
theorem foldWriteLines : ∀ (ls : List String) (st : TexState),
    (∀ l ∈ ls, ∀ ch ∈ (pyStrip l).data, ch ≠ '%') →
    List.foldlM writeLineStep st ls =
      .ok ⟨st.out ++ ls.filterMap lineEvt, st.variation_counter, st.variation_stack⟩ := by
  intro ls
  induction ls with
  | nil =>
    intro st h
    rw [List.foldlM_nil]
    show (Except.ok st : Except Err TexState) = _
    rw [List.filterMap_nil, List.append_nil]
  | cons a ls ih =>
    intro st h
    have ha := h a (List.mem_cons_self a ls)
    rw [List.foldlM_cons]
    by_cases hb : pyStrip a = ""
    · have h1 : writeLineStep st a = .ok st := by simp [writeLineStep, hb]
      have h2 : lineEvt a = none := by simp [lineEvt, hb]
      rw [h1]
      show List.foldlM writeLineStep st ls = _
      rw [ih st (fun l hl => h l (List.mem_cons_of_mem a hl))]
      simp [List.filterMap_cons, h2]
    · have h1 : writeLineStep st a = .ok (write st (pyStrip a) true false) := by
        simp [writeLineStep, hb, writeNAOk st (pyStrip a) true false ha]
      have h2 : lineEvt a = some ⟨pyStrip a, true, false⟩ := by simp [lineEvt, hb]
      rw [h1]
      show List.foldlM writeLineStep (write st (pyStrip a) true false) ls = _
      rw [ih _ (fun l hl => h l (List.mem_cons_of_mem a hl))]
      simp [List.filterMap_cons, h2, write]

/-- `writeCommentLines` on a percent-free text, in terms of `lineEvts`. -/
theorem writeCommentLinesOut (u : String) (st : TexState)
    (hp : ∀ ch ∈ u.data, ch ≠ '%') :
    writeCommentLines u st =
      .ok ⟨st.out ++ lineEvts u, st.variation_counter, st.variation_stack⟩ :=
  foldWriteLines (pySplitChar '\n' u) st (noPercentLines u hp)

/-- `commentParaState` on a percent-free text, in terms of
`commentParaEvents`. -/
theorem commentParaStateOut (t : String) (st : TexState)
    (hp : ∀ ch ∈ t.data, ch ≠ '%') :
    commentParaState t st =
      .ok ⟨st.out ++ commentParaEvents t, st.variation_counter, st.variation_stack⟩ := by
  simp only [commentParaState, commentParaEvents]
  by_cases hd : "(D)".data.isPrefixOf t.data = true
  · rw [if_pos hd, if_pos hd]
    rw [show make_diagram st = .ok (write st "\\chessboard" true false) from rfl]
    show writeCommentLines (pyStrip (pyDrop t 3)) (write st "\\chessboard" true false) = _
    rw [writeCommentLinesOut (pyStrip (pyDrop t 3)) (write st "\\chessboard" true false)
      (fun ch hch => noPercentStripDrop t 3 hp ch hch)]
    simp [write]
  · rw [if_neg hd, if_neg hd]
    exact writeCommentLinesOut t st hp

/-- Every line event is a paragraph-mode write. -/
theorem lineEvtsPara (u : String) : ∀ ev ∈ lineEvts u, ev.paragraph = true := by
  intro ev hev
  simp only [lineEvts, List.mem_filterMap] at hev
  obtain ⟨l, -, hl⟩ := hev
  by_cases hb : pyStrip l = ""
  · simp [lineEvt, hb] at hl
  · simp only [lineEvt] at hl
    rw [if_neg hb] at hl
    cases hl
    rfl

/-- Every event of a paragraph comment is a paragraph-mode write. -/
theorem commentParaEventsPara (t : String) :
    ∀ ev ∈ commentParaEvents t, ev.paragraph = true := by
  intro ev hev
  simp only [commentParaEvents] at hev
  by_cases hd : "(D)".data.isPrefixOf t.data = true
  · rw [if_pos hd] at hev
    rcases List.mem_cons.1 hev with rfl | h
    · rfl
    · exact lineEvtsPara _ ev h
  · rw [if_neg hd] at hev
    exact lineEvtsPara _ ev hev

/-- A paragraph-style comment (first character not lower-case, no percent
signs) whose lookahead is not `end-variation` emits exactly its paragraph
events and consumes nothing extra. -/
theorem parseCommentParagraph (t : String) (c : Char) (cs : List Char)
    (next : PGNElement) (st : TexState) (hc : t.data = c :: cs)
    (hlow : c.isLower = false) (hnext : next.name ≠ "end-variation")
    (hp : ∀ ch ∈ t.data, ch ≠ '%') :
    parse_comment t (some next) st =
      .ok (⟨st.out ++ commentParaEvents t, st.variation_counter, st.variation_stack⟩, false) := by
  simp only [parse_comment]
  simp only [hc]
  simp only [hlow, Bool.false_eq_true, if_false]
  rw [if_neg hnext, commentParaStateOut t st hp]

/-- An inline comment (first character lower-case, no percent signs) is a
single non-paragraph write, regardless of the lookahead. -/
theorem parseCommentInline (t : String) (c : Char) (cs : List Char)
    (next? : Option PGNElement) (st : TexState) (hc : t.data = c :: cs)
    (hlow : c.isLower = true) (hp : ∀ ch ∈ t.data, ch ≠ '%') :
    parse_comment t next? st = .ok (write st t false false, false) := by
  simp only [parse_comment]
  simp only [hc]
  simp only [hlow, if_true]
  rw [writeNAOk st t false false hp]

/-- A paragraph-style comment (no percent signs) whose lookahead is
`end-variation`: the close delimiter is written first, the lookahead is
consumed, the paragraph events follow, and only then come the pop/resume
write and the blank write. -/
theorem parseCommentClose (t : String) (c : Char) (cs : List Char) (st : TexState)
    (v : String) (vs : List String) (next : PGNElement) (hn : next.name = "end-variation")
    (hc : t.data = c :: cs) (hlow : c.isLower = false)
    (hstack : st.variation_stack = v :: vs) (hp : ∀ ch ∈ t.data, ch ≠ '%') :
    parse_comment t (some next) st =
      .ok (⟨st.out ++ ⟨")", false, false⟩ ::
            (commentParaEvents t ++
              [⟨"\\resumechessgame[id=" ++ vs.headD "main" ++ "]", false, vs.isEmpty⟩,
               ⟨"", false, false⟩]),
          st.variation_counter, vs⟩, true) := by
  have hcp := commentParaStateOut t (write st ")" false false) hp
  simp only [parse_comment]
  simp only [hc]
  simp only [hlow, Bool.false_eq_true, if_false]
  rw [if_pos hn]
  rw [show writeNA st ")" false false = .ok (write st ")" false false) from rfl]
  simp only [hcp]
  simp only [write, end_variation, hstack]
  simp only [show ∀ s : TexState, writeNA s "" false false = .ok (write s "" false false)
    from fun s => rfl]
  simp [write, List.append_assoc]

/-- Claim C5 (amended): a non-empty comment without percent signs whose
first character is a lower-case letter is emitted as a single inline
write with no paragraph break; any other percent-free comment is emitted
in paragraph mode — a diagram command when marked `(D)`, then one
paragraph write per non-blank trimmed line (so a comment with no
non-blank content emits nothing at all).  A comment containing a stray
percent sign instead raises in the `%`-formatting of the write. -/
theorem comment_inline_vs_paragraph (t : String) (c : Char) (cs : List Char)
    (next : PGNElement) (next? : Option PGNElement) (st : TexState)
    (hc : t.data = c :: cs) (hnext : next.name ≠ "end-variation")
    (hp : ∀ ch ∈ t.data, ch ≠ '%') :
    (c.isLower = true → parse_comment t next? st = .ok (write st t false false, false)) ∧
    (c.isLower = false →
      parse_comment t (some next) st =
        .ok (⟨st.out ++ commentParaEvents t, st.variation_counter, st.variation_stack⟩, false) ∧
      ∀ ev ∈ commentParaEvents t, ev.paragraph = true) :=
  ⟨fun hlow => parseCommentInline t c cs next? st hc hlow hp,
   fun hlow => ⟨parseCommentParagraph t c cs next st hc hlow hnext hp,
     commentParaEventsPara t⟩⟩

/-- Claim C5 counterexamples to the original claim: the comment text
consisting of one space is non-empty and its first character is not a
lower-case letter, yet the generator emits nothing at all — no paragraph
is started (the state is returned unchanged, with an empty sink); and a
lower-case comment containing a stray percent sign raises in the
`%`-formatting instead of being written inline. -/
theorem comment_blank_cex :
    Char.isLower ' ' = false ∧
    parse_comment " " (some ⟨"result", "1-0"⟩) texInit = .ok (texInit, false) ∧
    commentParaEvents " " = [] ∧
    parse_comment "p% here" (some ⟨"result", "1-0"⟩) texInit = .error Err.formatError :=
  ⟨rfl, rfl, rfl, rfl⟩

/-- Claim C5 witness: the two spec examples — `better here` inline with no
paragraph flag, `Better here.` as exactly one paragraph write. -/
theorem comment_inline_vs_paragraph_witness :
    parse_comment "better here" (some ⟨"result", "1-0"⟩) texInit =
      .ok (write texInit "better here" false false, false) ∧
    (parse_comment "Better here." (some ⟨"result", "1-0"⟩) texInit =
      .ok (⟨texInit.out ++ commentParaEvents "Better here.", texInit.variation_counter,
        texInit.variation_stack⟩, false) ∧
      ∀ ev ∈ commentParaEvents "Better here.", ev.paragraph = true) ∧
    commentParaEvents "Better here." = [⟨"Better here.", true, false⟩] :=
  ⟨(comment_inline_vs_paragraph "better here" 'b' "etter here".data ⟨"result", "1-0"⟩
      (some ⟨"result", "1-0"⟩) texInit rfl (by decide) (by decide)).1 rfl,
   (comment_inline_vs_paragraph "Better here." 'B' "etter here.".data ⟨"result", "1-0"⟩
      (some ⟨"result", "1-0"⟩) texInit rfl (by decide) (by decide)).2 rfl,
   rfl⟩

/-- Claim C1 (amended): when a paragraph-style comment (first character
not lower-case, text without percent signs) is immediately followed by
`end-variation`, the generator emits the closing delimiter first,
advances past the `end-variation`, emits the comment paragraph events,
and only afterwards performs the pop/resume (and the blank write); in
particular, in the spec's scenario the closing delimiter appears in the
output before the comment paragraph text.  A comment with a stray
percent sign instead raises in the write's `%`-formatting after the
closing delimiter, so neither the paragraph nor the pop/resume is
emitted. -/
theorem comment_before_end_variation (t : String) (c : Char) (cs : List Char)
    (rest : List PGNElement) (st : TexState) (v : String) (vs : List String)
    (hc : t.data = c :: cs) (hlow : c.isLower = false)
    (hstack : st.variation_stack = v :: vs) (hp : ∀ ch ∈ t.data, ch ≠ '%') :
    (writeGameAux (⟨"comment", t⟩ :: ⟨"end-variation", ""⟩ :: rest) st =
      writeGameAux rest
        ⟨st.out ++ ⟨")", false, false⟩ ::
            (commentParaEvents t ++
              [⟨"\\resumechessgame[id=" ++ vs.headD "main" ++ "]", false, vs.isEmpty⟩,
               ⟨"", false, false⟩]),
          st.variation_counter, vs⟩) ∧
    write_game texInit c1DemoGame = .ok ⟨c1DemoOut, 1, []⟩ ∧
    c1DemoOut.indexOf ⟨")", false, false⟩ <
      c1DemoOut.indexOf ⟨"Interesting idea.", true, false⟩ := by
  refine ⟨?_, rfl, by decide⟩
  have hpc := parseCommentClose t c cs st v vs ⟨"end-variation", ""⟩ rfl hc hlow hstack hp
  have hstep : writeGameStep ⟨"comment", t⟩ (some ⟨"end-variation", ""⟩) st =
      match parse_comment t (some ⟨"end-variation", ""⟩) st with
      | .error er => .error er
      | .ok (st2, skipped) => .ok (st2, skipped, false) := rfl
  rw [hpc] at hstep
  simp only [writeGameAux, List.head?_cons, hstep]
  simp

/-- Claim C1 counterexample: a paragraph comment containing a stray
percent sign makes the `%`-formatting of the write raise, so on the
sequence comment-then-end-variation the generator fails instead of
emitting the comment paragraph and then performing the pop/resume, as
the original claim requires for every comment text. -/
theorem comment_percent_cex :
    pyFormatNoArgs "A 50% idea" = .error Err.formatError ∧
    writeGameAux [⟨"comment", "A 50% idea"⟩, ⟨"end-variation", ""⟩] ⟨[], 1, ["var0"]⟩ =
      .error Err.formatError :=
  ⟨rfl, rfl⟩

/-- Claim C1 witness: the reordering step at a concrete state with one
open variation. -/
theorem comment_before_end_variation_witness :
    writeGameAux [⟨"comment", "Interesting idea."⟩, ⟨"end-variation", ""⟩] ⟨[], 1, ["var0"]⟩ =
      .ok ⟨[⟨")", false, false⟩, ⟨"Interesting idea.", true, false⟩,
            ⟨"\\resumechessgame[id=main]", false, true⟩, ⟨"", false, false⟩], 1, []⟩ :=
  ((comment_before_end_variation "Interesting idea." 'I' "nteresting idea.".data []
      ⟨[], 1, ["var0"]⟩ "var0" [] rfl rfl rfl (by decide)).1).trans rfl

/-- Header scanning over lines that all match: every line is inserted and
the scan runs off the end with no body (`None`). -/
theorem parseHeadersAuxAll : ∀ (ls : List String) (m : List (String × String)),
    (∀ x ∈ ls, pyStrip x ≠ "" ∧ (headerMatch x).isSome) →
    parseHeadersAux ls m = .ok (hdrFold m ls, none) := by
  intro ls
  induction ls with
  | nil => intro m h; rfl
  | cons a ls ih =>
    intro m h
    obtain ⟨hb, hm⟩ := h a (List.mem_cons_self a ls)
    simp only [parseHeadersAux, if_neg hb]
    match hmv : headerMatch a with
    | none => rw [hmv] at hm; simp at hm
    | some kv =>
      show parseHeadersAux ls (dictInsert m (pyLower kv.1) kv.2) = _
      rw [ih _ (fun x hx => h x (List.mem_cons_of_mem a hx))]
      simp [hdrFold, List.foldl_cons, hmv]

/-- Header scanning stops at the first blank line after a block of
matching lines, returning the remaining lines re-joined as the body. -/
theorem parseHeadersAuxStop : ∀ (ls1 : List String) (l : String) (rest : List String)
    (m : List (String × String)),
    (∀ x ∈ ls1, pyStrip x ≠ "" ∧ (headerMatch x).isSome) → pyStrip l = "" →
    parseHeadersAux (ls1 ++ l :: rest) m =
      .ok (hdrFold m ls1, some (String.intercalate "\n" rest)) := by
  intro ls1
  induction ls1 with
  | nil =>
    intro l rest m h hb
    simp only [List.nil_append, parseHeadersAux, if_pos hb, hdrFold, List.foldl_nil]
  | cons a ls ih =>
    intro l rest m h hb
    obtain ⟨hba, hma⟩ := h a (List.mem_cons_self a ls)
    simp only [List.cons_append, parseHeadersAux, if_neg hba]
    match hmv : headerMatch a with
    | none => rw [hmv] at hma; simp at hma
    | some kv =>
      show parseHeadersAux (ls ++ l :: rest) (dictInsert m (pyLower kv.1) kv.2) = _
      rw [ih l rest _ (fun x hx => h x (List.mem_cons_of_mem a hx)) hb]
      simp [hdrFold, List.foldl_cons, hmv]

/-- A non-blank, non-matching line reached after a block of matching
lines fails with a header-syntax error naming that line. -/
theorem parseHeadersAuxErr : ∀ (ls1 : List String) (l : String) (rest : List String)
    (m : List (String × String)),
    (∀ x ∈ ls1, pyStrip x ≠ "" ∧ (headerMatch x).isSome) →
    pyStrip l ≠ "" → headerMatch l = none →
    parseHeadersAux (ls1 ++ l :: rest) m = .error (.headerSyntax l) := by
  intro ls1
  induction ls1 with
  | nil =>
    intro l rest m h hb hm
    simp only [List.nil_append, parseHeadersAux, if_neg hb, hm]
  | cons a ls ih =>
    intro l rest m h hb hm
    obtain ⟨hba, hma⟩ := h a (List.mem_cons_self a ls)
    simp only [List.cons_append, parseHeadersAux, if_neg hba]
    match hmv : headerMatch a with
    | none => rw [hmv] at hma; simp at hma
    | some kv =>
      exact ih l rest _ (fun x hx => h x (List.mem_cons_of_mem a hx)) hb hm

/-- Claim C7: the Header Parser scans lines from the start and stops at
the first blank line, returning everything after it (re-joined, unparsed)
as the movetext body; every earlier line must match the bracketed
key/quoted-value pattern and is inserted with its key lower-cased (the
`hdrFold` of the lines); a non-empty non-matching line before the first
blank line fails with a header-syntax error naming the offending line. -/
theorem header_scanning (content : String) (ls1 : List String) (l : String)
    (rest : List String) (hsplit : pySplitChar '\n' content = ls1 ++ l :: rest)
    (hpre : ∀ x ∈ ls1, pyStrip x ≠ "" ∧ (headerMatch x).isSome) :
    (pyStrip l = "" →
      parse_headers content = .ok (hdrFold [] ls1, some (String.intercalate "\n" rest))) ∧
    (pyStrip l ≠ "" → headerMatch l = none →
      parse_headers content = .error (.headerSyntax l)) := by
  constructor
  · intro hb
    simp only [parse_headers, hsplit]
    exact parseHeadersAuxStop ls1 l rest [] hpre hb
  · intro hb hm
    simp only [parse_headers, hsplit]
    exact parseHeadersAuxErr ls1 l rest [] hpre hb hm

/-- Claim C7 witness: a matching header line with a blank separator gives
a lower-cased key and the unparsed body; a bad line is named in the
error. -/
theorem header_scanning_witness :
    parse_headers "[White \"Smith, John\"]\n\n1. e4" =
      .ok ([("white", "Smith, John")], some "1. e4") ∧
    parse_headers "[White \"a\"]\nbad line\n\nbody" =
      .error (.headerSyntax "bad line") :=
  ⟨(header_scanning "[White \"Smith, John\"]\n\n1. e4" ["[White \"Smith, John\"]"] ""
      ["1. e4"] rfl (by decide)).1 rfl,
   (header_scanning "[White \"a\"]\nbad line\n\nbody" ["[White \"a\"]"] "bad line"
      ["", "body"] rfl (by decide)).2 (by decide) rfl⟩

/-- Claim C10: when the input has no blank line at all (every line is
non-empty and matches the header pattern), the Header Parser runs off the
end and returns no movetext body (`None` rather than an empty string),
and the pipeline then fails when `parse_game(None)` calls
`None.lstrip()`, so a well-formed input implicitly needs a blank
separator line after the headers. -/
theorem missing_blank_line (content : String)
    (hall : ∀ x ∈ pySplitChar '\n' content, pyStrip x ≠ "" ∧ (headerMatch x).isSome) :
    parse_headers content = .ok (hdrFold [] (pySplitChar '\n' content), none) ∧
    pgnParser content = some (.error Err.attributeError) := by
  have h1 : parse_headers content = .ok (hdrFold [] (pySplitChar '\n' content), none) := by
    simp only [parse_headers]
    exact parseHeadersAuxAll _ [] hall
  refine ⟨h1, ?_⟩
  simp only [pgnParser, h1]

/-- Claim C10 witness: a single matching header line and no blank line. -/
theorem missing_blank_line_witness :
    parse_headers "[White \"a\"]" = .ok ([("white", "a")], none) ∧
    pgnParser "[White \"a\"]" = some (.error Err.attributeError) :=
  missing_blank_line "[White \"a\"]" (by decide)

/-- What a successful comment step does to the variation stack: either it
consumed nothing extra and left the stack alone (inline comments and
paragraph comments not followed by `end-variation`), or it consumed the
following `end-variation` and popped exactly one variation. -/
theorem parseCommentStack (t : String) (next? : Option PGNElement) (st st2 : TexState)
    (skipped : Bool) (h : parse_comment t next? st = .ok (st2, skipped)) :
    (skipped = false ∧ st2.variation_stack = st.variation_stack) ∨
    (skipped = true ∧ (∃ next, next? = some next ∧ next.name = "end-variation") ∧
      ∃ v, st.variation_stack = v :: st2.variation_stack) := by
  simp only [parse_comment] at h
  match hdata : t.data with
  | [] => simp only [hdata] at h; simp at h
  | c :: cs =>
    simp only [hdata] at h
    by_cases hlow : c.isLower
    · rw [if_pos hlow] at h
      match hw : writeNA st t false false with
      | .error er => rw [hw] at h; simp at h
      | .ok s1 =>
        rw [hw] at h
        have h2 : Except.ok (s1, false) = Except.ok (st2, skipped) := h
        simp only [Except.ok.injEq, Prod.mk.injEq] at h2
        obtain ⟨h3, h4⟩ := h2
        left
        refine ⟨h4.symm, ?_⟩
        rw [← h3]
        exact writeNAStack st t false false s1 hw
    · rw [if_neg hlow] at h
      cases next? with
      | none => simp at h
      | some next =>
        have h' : (if next.name = "end-variation" then
              match writeNA st ")" false false with
              | Except.error er => Except.error er
              | Except.ok st1 =>
                match commentParaState t st1 with
                | Except.error er => Except.error er
                | Except.ok st3 =>
                  match end_variation st3 with
                  | Except.error er => Except.error er
                  | Except.ok st4 =>
                    match writeNA st4 "" false false with
                    | Except.error er => Except.error er
                    | Except.ok st5 => Except.ok (st5, true)
            else
              match commentParaState t st with
              | Except.error er => Except.error er
              | Except.ok st3 => Except.ok (st3, false)) = Except.ok (st2, skipped) := h
        by_cases hn : next.name = "end-variation"
        · rw [if_pos hn] at h'
          rw [show writeNA st ")" false false = .ok (write st ")" false false) from rfl] at h'
          have h'' : (match commentParaState t (write st ")" false false) with
              | Except.error er => Except.error er
              | Except.ok st3 =>
                match end_variation st3 with
                | Except.error er => Except.error er
                | Except.ok st4 =>
                  match writeNA st4 "" false false with
                  | Except.error er => Except.error er
                  | Except.ok st5 => Except.ok (st5, true)) = Except.ok (st2, skipped) := h'
          match hcp : commentParaState t (write st ")" false false) with
          | .error er => rw [hcp] at h''; simp at h''
          | .ok st3 =>
            rw [hcp] at h''
            have hst3 : st3.variation_stack = st.variation_stack :=
              (commentParaStateStack t (write st ")" false false) st3 hcp).trans rfl
            have h3 : (match end_variation st3 with
                | Except.error er => Except.error er
                | Except.ok st4 =>
                  match writeNA st4 "" false false with
                  | Except.error er => Except.error er
                  | Except.ok st5 => Except.ok (st5, true)) = Except.ok (st2, skipped) := h''
            match hev : end_variation st3 with
            | .error er => rw [hev] at h3; simp at h3
            | .ok st4 =>
              rw [hev] at h3
              have h4 : (match writeNA st4 "" false false with
                  | Except.error er => Except.error er
                  | Except.ok st5 => Except.ok (st5, true)) = Except.ok (st2, skipped) := h3
              rw [show writeNA st4 "" false false = .ok (write st4 "" false false) from rfl] at h4
              have h5 : Except.ok (write st4 "" false false, true) = Except.ok (st2, skipped) := h4
              simp only [Except.ok.injEq, Prod.mk.injEq] at h5
              obtain ⟨h6, h7⟩ := h5
              obtain ⟨v0, hv0⟩ := endVariationStack st3 st4 hev
              right
              refine ⟨h7.symm, ⟨next, rfl, hn⟩, v0, ?_⟩
              have hst2 : st2.variation_stack = st4.variation_stack := by rw [← h6]; rfl
              rw [hst2, ← hst3]
              exact hv0
        · rw [if_neg hn] at h'
          match hcp : commentParaState t st with
          | .error er => rw [hcp] at h'; simp at h'
          | .ok st3 =>
            rw [hcp] at h'
            have h2 : Except.ok (st3, false) = Except.ok (st2, skipped) := h'
            simp only [Except.ok.injEq, Prod.mk.injEq] at h2
            obtain ⟨h3, h4⟩ := h2
            left
            refine ⟨h4.symm, ?_⟩
            rw [← h3]
            exact commentParaStateStack t st st3 hcp

/-- Strong induction for the amended variation-balance claim: a generator
run that returns successfully never consumed more `end-variation`
elements than `start-variation` elements plus the initially open
variations (sequences containing the `end` sentinel are excluded since
the loop stops there without reading further). -/
theorem variationBalanceAux : ∀ (n : Nat) (g : List PGNElement), g.length ≤ n →
    ∀ (st st' : TexState), (∀ e ∈ g, e.name ≠ "end") →
    writeGameAux g st = .ok st' →
    countElt "end-variation" g ≤ countElt "start-variation" g + st.variation_stack.length := by
  intro n
  induction n with
  | zero =>
    intro g hg st st' hne hok
    match g with
    | [] => simp [countElt]
    | e :: rest => simp at hg
  | succ n ih =>
    intro g hg st st' hne hok
    match g with
    | [] => simp [countElt]
    | e :: rest =>
      simp only [List.length_cons] at hg
      simp only [writeGameAux] at hok
      match hstep : writeGameStep e rest.head? st with
      | .error er =>
        rw [hstep] at hok
        simp at hok
      | .ok (st2, skipped, stop) =>
        rw [hstep] at hok
        have hok2 : (if stop then Except.ok st2
            else if skipped then
              match rest with
              | [] => Except.ok st2
              | _ :: rest2 => writeGameAux rest2 st2
            else writeGameAux rest st2) = Except.ok st' := hok
        have hnee : e.name ≠ "end" := hne e (List.mem_cons_self e rest)
        have hnerest : ∀ x ∈ rest, x.name ≠ "end" :=
          fun x hx => hne x (List.mem_cons_of_mem e hx)
        by_cases hm1 : e.name = "moves"
        · have hs2 : writeGameStep e rest.head? st = .ok (write_moves st e.text, false, false) := by
            simp [writeGameStep, hm1]
          rw [hstep] at hs2
          simp only [Except.ok.injEq, Prod.mk.injEq] at hs2
          obtain ⟨ha, hb, hc2⟩ := hs2
          subst hb; subst hc2
          simp only [Bool.false_eq_true, if_false] at hok2
          have hrec := ih rest (by omega) st2 st' hnerest hok2
          have hstk : st2.variation_stack = st.variation_stack := by
            rw [ha]; rfl
          rw [countEltCons, countEltCons, hm1]
          simp only [hstk] at hrec
          simp
          omega
        · by_cases hm2 : e.name = "comment"
          · have hs2 : writeGameStep e rest.head? st =
                (match parse_comment e.text rest.head? st with
                | Except.error er => Except.error er
                | Except.ok (st3, sk) => Except.ok (st3, sk, false)) := by
              simp [writeGameStep, hm2]
            match hpc : parse_comment e.text rest.head? st with
            | .error er =>
              rw [hpc] at hs2
              rw [hstep] at hs2
              simp at hs2
            | .ok (st3, sk) =>
              rw [hpc] at hs2
              have hs3 : writeGameStep e rest.head? st = .ok (st3, sk, false) := hs2
              rw [hstep] at hs3
              simp only [Except.ok.injEq, Prod.mk.injEq] at hs3
              obtain ⟨ha, hb, hc2⟩ := hs3
              subst hc2
              rcases parseCommentStack e.text rest.head? st st3 sk hpc with
                ⟨hsk, hstk⟩ | ⟨hsk, ⟨nx, hnx, hnxname⟩, v, hpop⟩
              · subst hsk; subst hb
                simp only [Bool.false_eq_true, if_false] at hok2
                have hrec := ih rest (by omega) st2 st' hnerest hok2
                rw [ha] at hrec
                rw [countEltCons, countEltCons, hm2]
                simp only [hstk] at hrec
                simp
                omega
              · subst hsk; subst hb
                match rest, hnx with
                | r1 :: rest2, hnx =>
                  simp only [List.head?_cons, Option.some.injEq] at hnx
                  have hok3 : writeGameAux rest2 st2 = Except.ok st' := by
                    have : (if false then Except.ok st2
                        else if true then
                          match r1 :: rest2 with
                          | [] => Except.ok st2
                          | _ :: rest2 => writeGameAux rest2 st2
                        else writeGameAux (r1 :: rest2) st2) = Except.ok st' := hok2
                    simpa using this
                  simp only [List.length_cons] at hg
                  have hrec := ih rest2 (by omega) st2 st'
                    (fun x hx => hnerest x (List.mem_cons_of_mem r1 hx)) hok3
                  rw [ha] at hrec
                  rw [countEltCons, countEltCons, countEltCons, countEltCons, hm2]
                  rw [← hnx] at hnxname
                  rw [hnxname]
                  have hlen : st.variation_stack.length = st3.variation_stack.length + 1 := by
                    rw [hpop]; rfl
                  simp
                  omega
          · by_cases hm3 : e.name = "evaluation"
            · have hs2 : writeGameStep e rest.head? st =
                  (match writeNA st e.text false false with
                   | Except.error er => Except.error er
                   | Except.ok s2 => Except.ok (s2, false, false)) := by
                simp [writeGameStep, hm1, hm2, hm3]
              match hw : writeNA st e.text false false with
              | .error er =>
                rw [hw] at hs2
                rw [hstep] at hs2
                simp at hs2
              | .ok s2 =>
                rw [hw] at hs2
                have hs3 : writeGameStep e rest.head? st = .ok (s2, false, false) := hs2
                rw [hstep] at hs3
                simp only [Except.ok.injEq, Prod.mk.injEq] at hs3
                obtain ⟨ha, hb, hc2⟩ := hs3
                subst hb; subst hc2
                simp only [Bool.false_eq_true, if_false] at hok2
                have hrec := ih rest (by omega) st2 st' hnerest hok2
                have hstk : st2.variation_stack = st.variation_stack := by
                  rw [ha]
                  exact writeNAStack st e.text false false s2 hw
                rw [countEltCons, countEltCons, hm3]
                simp only [hstk] at hrec
                simp
                omega
            · by_cases hm4 : e.name = "result"
              · have hs2 : writeGameStep e rest.head? st =
                    (match writeNA st e.text true false with
                     | Except.error er => Except.error er
                     | Except.ok s2 => Except.ok (s2, false, false)) := by
                  simp [writeGameStep, hm1, hm2, hm3, hm4]
                match hw : writeNA st e.text true false with
                | .error er =>
                  rw [hw] at hs2
                  rw [hstep] at hs2
                  simp at hs2
                | .ok s2 =>
                  rw [hw] at hs2
                  have hs3 : writeGameStep e rest.head? st = .ok (s2, false, false) := hs2
                  rw [hstep] at hs3
                  simp only [Except.ok.injEq, Prod.mk.injEq] at hs3
                  obtain ⟨ha, hb, hc2⟩ := hs3
                  subst hb; subst hc2
                  simp only [Bool.false_eq_true, if_false] at hok2
                  have hrec := ih rest (by omega) st2 st' hnerest hok2
                  have hstk : st2.variation_stack = st.variation_stack := by
                    rw [ha]
                    exact writeNAStack st e.text true false s2 hw
                  rw [countEltCons, countEltCons, hm4]
                  simp only [hstk] at hrec
                  simp
                  omega
              · by_cases hm5 : e.name = "start-variation"
                · have hs2 : writeGameStep e rest.head? st =
                      .ok (start_variation (write st "(" false false), false, false) := by
                    simp [writeGameStep, hm1, hm2, hm3, hm4, hm5,
                      show writeNA st "(" false false = .ok (write st "(" false false)
                        from rfl]
                  rw [hstep] at hs2
                  simp only [Except.ok.injEq, Prod.mk.injEq] at hs2
                  obtain ⟨ha, hb, hc2⟩ := hs2
                  subst hb; subst hc2
                  simp only [Bool.false_eq_true, if_false] at hok2
                  have hrec := ih rest (by omega) st2 st' hnerest hok2
                  have hstk : st2.variation_stack.length = st.variation_stack.length + 1 := by
                    rw [ha]; rfl
                  rw [countEltCons, countEltCons, hm5]
                  simp only [hstk] at hrec
                  simp
                  omega
                · by_cases hm6 : e.name = "end-variation"
                  · match hstk : st.variation_stack with
                    | [] =>
                      have hs2 : writeGameStep e rest.head? st = .error .unbalancedVariation := by
                        simp [writeGameStep, hm1, hm2, hm3, hm4, hm5, hm6, end_variation,
                          write, hstk,
                          show writeNA st ")" false false = .ok (write st ")" false false)
                            from rfl]
                      rw [hstep] at hs2
                      simp at hs2
                    | v :: vs =>
                      have hs2 : writeGameStep e rest.head? st =
                          .ok (write ⟨(write st ")" false false).out,
                            (write st ")" false false).variation_counter, vs⟩
                            ("\\resumechessgame[id=" ++ vs.headD "main" ++ "]") false
                            vs.isEmpty, false, false) := by
                        simp only [writeGameStep, hm6]
                        simp only [show writeNA st ")" false false =
                          .ok (write st ")" false false) from rfl]
                        simp only [write, end_variation, hstk]
                        simp
                      rw [hstep] at hs2
                      simp only [Except.ok.injEq, Prod.mk.injEq] at hs2
                      obtain ⟨ha, hb, hc2⟩ := hs2
                      subst hb; subst hc2
                      simp only [Bool.false_eq_true, if_false] at hok2
                      have hrec := ih rest (by omega) st2 st' hnerest hok2
                      have hstk2 : st2.variation_stack = vs := by
                        rw [ha]; rfl
                      rw [countEltCons, countEltCons, hm6]
                      simp only [hstk2] at hrec
                      simp
                      omega
                  · have hs2 : writeGameStep e rest.head? st =
                        .error (.unknownElement e.name) := by
                      simp [writeGameStep, hm1, hm2, hm3, hm4, hm5, hm6, hnee]
                    rw [hstep] at hs2
                    simp at hs2

/-- Claim C3 (amended): an `end-variation` encountered while the
variation stack is empty fails with `UnbalancedVariationError`, and a
successful generator run never contains more `end-variation` than
`start-variation` elements (relative to the initially open variations);
but the converse direction of the original claim is false — unclosed
`start-variation` elements do not make the generator fail, so the counts
need not be equal on success. -/
theorem variation_balance :
    (∀ (g : List PGNElement) (st st' : TexState), (∀ e ∈ g, e.name ≠ "end") →
      writeGameAux g st = .ok st' →
      countElt "end-variation" g ≤ countElt "start-variation" g + st.variation_stack.length) ∧
    (∀ (rest : List PGNElement) (st : TexState), st.variation_stack = [] →
      writeGameAux (⟨"end-variation", ""⟩ :: rest) st = .error Err.unbalancedVariation) := by
  constructor
  · intro g st st' hne hok
    exact variationBalanceAux g.length g (le_refl _) st st' hne hok
  · intro rest st hstk
    simp only [writeGameAux]
    have hstep : writeGameStep ⟨"end-variation", ""⟩ rest.head? st =
        match end_variation (write st ")" false false) with
        | .error er => .error er
        | .ok st2 => .ok (st2, false, false) := rfl
    rw [hstep]
    simp [end_variation, write, hstk]

/-- Claim C3 counterexample: a game with one `start-variation` and no
`end-variation` completes successfully, with unequal counts — the
generator does not fail on unclosed variations. -/
theorem variation_balance_cex :
    write_game texInit [⟨"start-variation", ""⟩, ⟨"end", ""⟩] =
      .ok ⟨[⟨"(", false, false⟩, ⟨"\\newchessgame[newvar=main, id=var0]", false, false⟩],
        1, ["var0"]⟩ ∧
    countElt "start-variation" [⟨"start-variation", ""⟩, ⟨"end", ""⟩] ≠
      countElt "end-variation" [⟨"start-variation", ""⟩, ⟨"end", ""⟩] :=
  ⟨rfl, by decide⟩

/-- Claim C3 witness: the bound at a balanced concrete game started from
the empty stack, and the failure of a bare `end-variation`. -/
theorem variation_balance_witness :
    countElt "end-variation" [⟨"start-variation", ""⟩, ⟨"end-variation", ""⟩] ≤
      countElt "start-variation" [⟨"start-variation", ""⟩, ⟨"end-variation", ""⟩] +
        texInit.variation_stack.length ∧
    writeGameAux [⟨"end-variation", ""⟩] texInit = .error Err.unbalancedVariation :=
  ⟨variation_balance.1 [⟨"start-variation", ""⟩, ⟨"end-variation", ""⟩] texInit
      ⟨[⟨"(", false, false⟩, ⟨"\\newchessgame[newvar=main, id=var0]", false, false⟩,
        ⟨")", false, false⟩, ⟨"\\resumechessgame[id=main]", false, true⟩], 1, []⟩
      (by decide) rfl,
   variation_balance.2 [] texInit rfl⟩
